import Mathlib

/-!
Shallow embedding of the request-dispatch core of the rustless framework
(src/framework/endpoint.rs): the `Endpoint` data type, parameter merging from
path captures, query string and body, schema validation, the four-phase hook
chain, handler invocation, and the `api_call` entry point.

External collaborators (the query-string parser, the JSON parser, UTF-8
decoding and the valico schema validator) are modelled as explicit capability
parameters, matching their use in the source.  Rust's in-place mutation of
`&mut JsonObject` / `&mut Request` is modelled by explicit state passing: every
pipeline stage returns the final state of the mutable parameter set and
request.  A Rust `panic!` (from `Option::unwrap` on `None`) is modelled as a
distinguished `panicked` outcome.  To reason about which stages ran and what
they observed, the pipeline also records a trace of events; each event is
emitted exactly where the corresponding source line executes.
-/

namespace Rustless

/-- JSON values as in rustc-serialize's `Json` type: null, booleans, numbers,
strings, arrays and objects (an object is a key-to-value mapping, here a list
of entries).  The numeric representation is irrelevant to the dispatch core,
which never inspects numbers, so a single integer constructor stands in for
the source's number variants. -/
inductive Json where
  | null
  | bool (b : Bool)
  | num (n : Int)
  | str (s : String)
  | arr (elems : List Json)
  | obj (entries : List (String × Json))

/-- `JsonObject`: the key-to-`Json` mapping used for the parameter set
(`TreeMap<String, Json>` in the source), modelled as an entry list; lookups
take the first entry with the key. -/
abbrev JsonObject := List (String × Json)

/-- `Json::as_object`: `Some` of the entries for an object, `None` for every
other variant. -/
def Json.as_object : Json → Option JsonObject
  | .obj entries => some entries
  | _ => none

/-- `TreeMap::contains_key` on the parameter set. -/
def contains_key (ps : JsonObject) (k : String) : Bool :=
  ps.any (fun e => e.1 == k)

/-- Lookup of key `k` in the parameter set (the value the map associates to
`k`, `none` when absent). -/
def getKey (ps : JsonObject) (k : String) : Option Json :=
  (ps.find? (fun e => e.1 == k)).map (fun e => e.2)

/-- `TreeMap::insert` as used by the merge loops: the source only ever inserts
a key that is not yet present, so appending the new entry has the same map
semantics. -/
def insertKey (ps : JsonObject) (k : String) (v : Json) : JsonObject :=
  ps ++ [(k, v)]

/-- The merge loop of `call_decode` (used once for query-string parameters and
once for body parameters):
`for (key, value) in src.iter() { if !params.contains_key(key) { params.insert(key, value) } }`. -/
def mergeIfAbsent (ps src : JsonObject) : JsonObject :=
  src.foldl (fun acc e => if contains_key acc e.1 then acc else insertKey acc e.1 e.2) ps

/-- The closed error taxonomy of the dispatch pipeline (`NotMatchError`,
`QueryStringDecodeError`, `BodyDecodeError`, `ValidationError`, plus the
opaque application-level errors a hook or handler may return). -/
inductive Error where
  | notMatch
  | queryStringDecode
  | bodyDecode (msg : String)
  | validation (reason : String)
  | app (code : Nat) (msg : String)
deriving DecidableEq

/-- Outcome of one pipeline step over the mutable parameter set: a Rust panic
(from `Option::unwrap` on `None`), an early `return Err(..)`, or success with
the updated parameter set. -/
inductive StepResult (α : Type) where
  | panicked (msg : String)
  | errored (e : Error)
  | okRes (val : α)

/-- Modelled from the spec: the `Response` object is an opaque, mutable,
handler-populated output extracted from the client at call end (its definition
lives outside `endpoint.rs`). -/
structure Response where
  status : Nat := 200
  body : Option Json := none

/-- The final outcome of a call: panic, typed error, or a response. -/
inductive DispatchResult where
  | panicked (msg : String)
  | errored (e : Error)
  | okRes (resp : Response)

/-- The incoming request as seen by `call_decode`: `req.url.query`,
`req.is_json_body()` and the outcome of `req.read_to_end()` (raw bytes, or an
I/O error already formatted to its message). -/
structure Request where
  query : Option String
  is_json_body : Bool
  read_to_end : Except String (List Nat)

/-- Modelled from the spec: the per-call `Client` (RequestContext) binds the
in-flight request and the in-progress response; it is threaded linearly
through hooks and handler.  The source's back-reference to the originating
endpoint is omitted (it is never consulted by the pipeline itself). -/
structure Client where
  request : Request
  response : Response

/-- `Client::new`: fresh client for one call, wrapping the request with a new
empty response. -/
def Client.new (req : Request) : Client :=
  { request := req, response := {} }

/-- `client.move_response()`. -/
def Client.move_response (c : Client) : Response :=
  c.response

/-- Modelled from the spec: a lifecycle hook callback is a function from the
client to an updated client or an error (`|&mut Client| -> HandleResult<()>`
in the source, with the mutation made explicit). -/
abbrev Callback := Client → Except Error Client

/-- Modelled from the spec: `CallInfo` carries the four ordered hook lists,
configured once per framework instance. -/
structure CallInfo where
  before : List Callback
  before_validation : List Callback
  after_validation : List Callback
  after : List Callback

/-- The four hook phases. -/
inductive Phase where
  | before
  | before_validation
  | after_validation
  | after
deriving DecidableEq

/-- Trace events recorded by the instrumented pipeline: a hook invocation
(with its phase, position in the phase and the parameter-set state at that
moment), a validation run, and a handler invocation. -/
inductive Event where
  | hookRun (ph : Phase) (idx : Nat) (paramsSeen : JsonObject)
  | validateRun (paramsSeen : JsonObject)
  | handlerRun (paramsSeen : JsonObject)

/-- HTTP methods (the `Method` enum of the server backend; only the shape
matters to the dispatch core). -/
inductive Method where
  | Get
  | Post
  | Put
  | Delete
deriving DecidableEq

/-- Modelled from the spec: a compiled path pattern exposes
`is_match : path -> Option<captures>`, yielding the named captures on a match
(`framework/path.rs` is outside the provided sources). -/
structure Path where
  is_match : String → Option (List (String × String))

/-- Modelled from the spec: `Path::apply_captures` writes the named captures
into the parameter set as string values; an already-present key is never
replaced. -/
def Path.apply_captures (params : JsonObject) (captures : List (String × String)) : JsonObject :=
  mergeIfAbsent params (captures.map (fun c => (c.1, Json.str c.2)))

/-- The external capabilities consumed by `call_decode`: `query::parse`,
`String::from_utf8` (with `none` for an invalid byte sequence) and
`json::from_str` (with the parse error already formatted to its message). -/
structure Externals where
  queryParse : String → Except Unit Json
  utf8Decode : List Nat → Option String
  jsonFromStr : String → Except String Json

/-- The valico coercer: validates the parameter set in place (modelled as
returning the updated set) or reports a structured reason. -/
abbrev Coercer := JsonObject → Except String JsonObject

/-- The endpoint handler: `fn(Client, &Json) -> HandleResult<Client>`. -/
abbrev EndpointHandler := Client → Json → Except Error Client

/-- The `Endpoint` record: method, compiled path, optional description,
optional valico coercer, optional handler. -/
structure Endpoint where
  method : Method
  path : Path
  desc : Option String := none
  coercer : Option Coercer := none
  handler : Option EndpointHandler := none

/-- `Endpoint::validate`: with a declared coercer, delegate to it and wrap a
failure into `ValidationError`; with no coercer, succeed without touching the
parameters. -/
def Endpoint.validate (self : Endpoint) (params : JsonObject) : Except Error JsonObject :=
  match self.coercer with
  | some coercer =>
    match coercer params with
    | .ok ps => .ok ps
    | .error err => .error (.validation err)
  | none => .ok params

/-- The panic message of `Option::unwrap` on `None`. -/
def unwrapMsg : String := "called Option::unwrap on a None value"

/-- One hook phase, starting at position `idx`: run each callback in order on
the threaded client, stopping at the first error
(`for cb in hooks.iter() { try!((*cb)(&mut client)); }`).  Returns the error
if any, the final client state, and one `hookRun` event per invoked callback
recording the parameter set `ps` current during the phase. -/
def runHooksFrom (ph : Phase) (idx : Nat) (hooks : List Callback) (client : Client)
    (ps : JsonObject) : Option Error × Client × List Event :=
  match hooks with
  | [] => (none, client, [])
  | cb :: rest =>
    match cb client with
    | .error e => (some e, client, [Event.hookRun ph idx ps])
    | .ok c2 =>
      let r := runHooksFrom ph (idx + 1) rest c2 ps
      (r.1, r.2.1, Event.hookRun ph idx ps :: r.2.2)

/-- One hook phase from its start. -/
def runHooks (ph : Phase) (hooks : List Callback) (client : Client) (ps : JsonObject) :
    Option Error × Client × List Event :=
  runHooksFrom ph 0 hooks client ps

/-- The query-string merge of `call_decode` (lines 93-107): if the request
carries a query string, parse it; on success take the parsed value as an
object (`as_object().unwrap()` — a panic when it is not an object) and insert
every key not already present; on a parse failure return
`QueryStringDecodeError`. -/
def queryMerge (ext : Externals) (params : JsonObject) (req : Request) :
    StepResult JsonObject :=
  match req.query with
  | none => .okRes params
  | some q =>
    match ext.queryParse q with
    | .ok query_params =>
      match query_params.as_object with
      | some qobj => .okRes (mergeIfAbsent params qobj)
      | none => .panicked unwrapMsg
    | .error _ => .errored .queryStringDecode

/-- The body merge of `call_decode` (lines 110-138): when the request declares
a JSON body, read it to completion (I/O failure: `BodyDecodeError` with the
formatted error), decode UTF-8 (failure: `BodyDecodeError` with the fixed
"Invalid UTF-8 sequence" message), and — only for a non-empty string — parse
JSON (failure: `BodyDecodeError` with the parser's message), take the result
as an object (`as_object().unwrap()` — a panic when it is not an object) and
insert every key not already present. -/
def bodyMerge (ext : Externals) (params : JsonObject) (req : Request) :
    StepResult JsonObject :=
  if req.is_json_body then
    match req.read_to_end with
    | .error ioErr => .errored (.bodyDecode ioErr)
    | .ok bytes =>
      match ext.utf8Decode bytes with
      | none => .errored (.bodyDecode "Invalid UTF-8 sequence")
      | some s =>
        if s.length > 0 then
          match ext.jsonFromStr s with
          | .ok json_body =>
            match json_body.as_object with
            | some bobj => .okRes (mergeIfAbsent params bobj)
            | none => .panicked unwrapMsg
          | .error err => .errored (.bodyDecode err)
        else .okRes params
  else .okRes params

/-- The full observable outcome of a call: the result, the final state of the
mutable parameter set (`&mut JsonObject`), the final state of the mutable
request, and the event trace. -/
structure CallOutcome where
  result : DispatchResult
  params : JsonObject
  request : Request
  events : List Event

/-- Tail of `call_decode` from the `after_validation` hooks on (lines
148-160): `after_validation` hooks, then `self.handler.unwrap()` (a panic when
no handler was attached), the handler on `params.to_json()`, and the `after`
hooks, finally extracting the response. -/
def afterValidationStage (self : Endpoint) (info : CallInfo) (c2 : Client)
    (p3 : JsonObject) : CallOutcome :=
  match runHooks .after_validation info.after_validation c2 p3 with
  | (some e, c3, evs3) => ⟨.errored e, p3, c3.request, evs3⟩
  | (none, c3, evs3) =>
    match self.handler with
    | none => ⟨.panicked unwrapMsg, p3, c3.request, evs3⟩
    | some h =>
      match h c3 (Json.obj p3) with
      | .error e => ⟨.errored e, p3, c3.request, evs3 ++ [Event.handlerRun p3]⟩
      | .ok c4 =>
        match runHooks .after info.after c4 p3 with
        | (some e, c5, evs4) =>
          ⟨.errored e, p3, c5.request, evs3 ++ [Event.handlerRun p3] ++ evs4⟩
        | (none, c5, evs4) =>
          ⟨.okRes c5.move_response, p3, c5.request,
            evs3 ++ [Event.handlerRun p3] ++ evs4⟩

/-- `try!(self.validate(params))` (line 146) and everything after it. -/
def validateStage (self : Endpoint) (info : CallInfo) (c2 : Client)
    (p2 : JsonObject) : CallOutcome :=
  match self.validate p2 with
  | .error e => ⟨.errored e, p2, c2.request, [Event.validateRun p2]⟩
  | .ok p3 =>
    let out := afterValidationStage self info c2 p3
    ⟨out.result, out.params, out.request, Event.validateRun p2 :: out.events⟩

/-- The `before_validation` hooks (lines 142-144) and everything after them,
given the client and the fully merged parameter set. -/
def afterMerges (self : Endpoint) (info : CallInfo) (c : Client)
    (p2 : JsonObject) : CallOutcome :=
  match runHooks .before_validation info.before_validation c p2 with
  | (some e, c2, evs2) => ⟨.errored e, p2, c2.request, evs2⟩
  | (none, c2, evs2) =>
    let out := validateStage self info c2 p2
    ⟨out.result, out.params, out.request, evs2 ++ out.events⟩

/-- The merge block of `call_decode` (lines 88-140) and everything after it:
query-string merge, then body merge, both against the request as left by the
`before` hooks, then the rest of the pipeline. -/
def mergeStage (self : Endpoint) (ext : Externals) (info : CallInfo) (c : Client)
    (p0 : JsonObject) : CallOutcome :=
  match queryMerge ext p0 c.request with
  | .panicked m => ⟨.panicked m, p0, c.request, []⟩
  | .errored e => ⟨.errored e, p0, c.request, []⟩
  | .okRes p1 =>
    match bodyMerge ext p1 c.request with
    | .panicked m => ⟨.panicked m, p1, c.request, []⟩
    | .errored e => ⟨.errored e, p1, c.request, []⟩
    | .okRes p2 => afterMerges self info c p2

/-- `Endpoint::call_decode` (lines 80-161): build the client, run the `before`
hooks, merge query-string and body parameters, run the `before_validation`
hooks, validate, run the `after_validation` hooks, invoke the handler, run the
`after` hooks, and extract the response; the first error anywhere is returned
immediately. -/
def Endpoint.call_decode (self : Endpoint) (ext : Externals) (params : JsonObject)
    (req : Request) (info : CallInfo) : CallOutcome :=
  let client := Client.new req
  match runHooks .before info.before client params with
  | (some e, c1, evs1) => ⟨.errored e, params, c1.request, evs1⟩
  | (none, c1, evs1) =>
    let out := mergeStage self ext info c1 params
    ⟨out.result, out.params, out.request, evs1 ++ out.events⟩

/-- `ApiHandler::api_call` for `Endpoint` (lines 166-176): match the remaining
path against the compiled pattern; on a match apply the captures to the
parameter set and run `call_decode`; otherwise return `NotMatchError` with
nothing touched. -/
def Endpoint.api_call (self : Endpoint) (ext : Externals) (rest_path : String)
    (params : JsonObject) (req : Request) (info : CallInfo) : CallOutcome :=
  match self.path.is_match rest_path with
  | some captures =>
    self.call_decode ext (Path.apply_captures params captures) req info
  | none => ⟨.errored .notMatch, params, req, []⟩

/-! ### Fixtures for concrete evaluations -/

/-- A compiled path whose matcher rejects every candidate. -/
def pathNone : Path := ⟨fun _ => none⟩

/-- Empty hook configuration. -/
def infoEmpty : CallInfo := ⟨[], [], [], []⟩

/-- A handler that returns its client unchanged. -/
def idHandler : EndpointHandler := fun c _ => Except.ok c

/-- Externals for the C1 witness: the query string parses to the object
`{a: "q", b: "qb"}` and the body parses to `{a: "ba", c: "bc"}`. -/
def c1ext : Externals :=
  ⟨fun _ => Except.ok (Json.obj [("a", Json.str "q"), ("b", Json.str "qb")]),
   fun _ => some "x",
   fun _ => Except.ok (Json.obj [("a", Json.str "ba"), ("c", Json.str "bc")])⟩

/-- Request for the C1 witness: query string present, JSON body declared. -/
def c1req : Request := ⟨some "a=q&b=qb", true, Except.ok [120]⟩

/-- Endpoint for the C1 witness: no coercer, identity handler. -/
def c1endpoint : Endpoint := ⟨.Get, pathNone, none, none, some idHandler⟩

/-- Does an event record a handler invocation? -/
def isHandlerRun : Event → Bool
  | .handlerRun _ => true
  | _ => false

/-- How many handler invocations a trace records. -/
def handlerRunCount (evs : List Event) : Nat :=
  evs.countP (fun ev => isHandlerRun ev)

/-- Rank of a hook phase in the fixed pipeline order. -/
def phaseRank : Phase → Nat
  | .before => 0
  | .before_validation => 1
  | .after_validation => 3
  | .after => 5

/-- Rank of a trace event in the fixed pipeline order: `before` hooks,
merges, `before_validation` hooks, validation, `after_validation` hooks,
handler, `after` hooks. -/
def evRank : Event → Nat
  | .hookRun ph _ _ => phaseRank ph
  | .validateRun _ => 2
  | .handlerRun _ => 4

/-- A trace is ordered when event ranks never decrease along it. -/
def EventsOrdered (evs : List Event) : Prop :=
  List.Pairwise (fun a b => evRank a ≤ evRank b) evs

/-- An endpoint with no coercer and the identity handler. -/
def epId : Endpoint := ⟨.Get, pathNone, none, none, some idHandler⟩

/-- An endpoint with no coercer and no handler ever attached. -/
def epNoHandler : Endpoint := ⟨.Get, pathNone, none, none, none⟩

/-- Externals whose parsers all fail (never consulted in the scenarios that
use them, except to fail). -/
def extInert : Externals :=
  ⟨fun _ => Except.error (), fun _ => none, fun _ => Except.error "parse error"⟩

/-- A request with no query string and no JSON body. -/
def reqPlain : Request := ⟨none, false, Except.ok []⟩

/-- A request carrying a (malformed) query string and no JSON body. -/
def reqBadQuery : Request := ⟨some "a==%", false, Except.ok []⟩

/-- Externals whose UTF-8 decoding yields the empty string. -/
def extEmptyBody : Externals :=
  ⟨fun _ => Except.error (), fun _ => some "", fun _ => Except.error "x"⟩

/-- A request declaring a JSON body. -/
def reqJsonBody : Request := ⟨none, true, Except.ok []⟩

/-- Externals whose JSON parser yields the array `[1]` for the body. -/
def extArrayBody : Externals :=
  ⟨fun _ => Except.error (), fun _ => some "[1]", fun _ => Except.ok (Json.arr [Json.num 1])⟩

/-- A request declaring a JSON body whose bytes are `[1]`. -/
def c8req : Request := ⟨none, true, Except.ok [91, 49, 93]⟩

/-- Externals whose query parser yields a (non-object) JSON array. -/
def extArrayQuery : Externals :=
  ⟨fun _ => Except.ok (Json.arr []), fun _ => none, fun _ => Except.error "x"⟩

/-- A request carrying a query string, no JSON body. -/
def reqWithQuery : Request := ⟨some "a=1", false, Except.ok []⟩

/-- A hook that always fails with an application error. -/
def failingHook : Callback := fun _ => Except.error (Error.app 1 "boom")

/-- A hook that succeeds without changing the client. -/
def okHook : Callback := fun c => Except.ok c

/-- Hook configuration whose only hook is a failing `before` hook. -/
def infoFailBefore : CallInfo := ⟨[failingHook], [], [], []⟩

/-- Hook configuration with one succeeding `before` hook and one failing
hook between two succeeding hooks in `before_validation`. -/
def infoFailMid : CallInfo := ⟨[okHook], [okHook, failingHook, okHook], [], []⟩

/-- Hook configuration with one succeeding hook in each of the four phases. -/
def infoAll : CallInfo := ⟨[okHook], [okHook], [okHook], [okHook]⟩

/-! ### Lookup and merge lemmas -/

/-- Lookup in the empty parameter set. -/
@[simp]
theorem getKey_nil (k : String) : getKey [] k = none := rfl

/-- Lookup in a cons cell: the head entry wins when its key matches. -/
theorem getKey_cons (e : String × Json) (ps : JsonObject) (k : String) :
    getKey (e :: ps) k = if e.1 == k then some e.2 else getKey ps k := by
  simp only [getKey, List.find?_cons]
  cases h : (e.1 == k) <;> simp [h]

/-- `contains_key` on the empty parameter set. -/
@[simp]
theorem contains_key_nil (k : String) : contains_key [] k = false := rfl

/-- `contains_key` on a cons cell. -/
theorem contains_key_cons (e : String × Json) (ps : JsonObject) (k : String) :
    contains_key (e :: ps) k = ((e.1 == k) || contains_key ps k) := by
  simp [contains_key]

/-- A key is contained exactly when its lookup succeeds. -/
theorem contains_key_eq_isSome (ps : JsonObject) (k : String) :
    contains_key ps k = (getKey ps k).isSome := by
  induction ps with
  | nil => rfl
  | cons e ps ih =>
    rw [contains_key_cons, getKey_cons, ih]
    cases h : (e.1 == k) <;> simp

/-- Lookup distributes over append: the left part wins when it has the key. -/
theorem getKey_append (ps qs : JsonObject) (k : String) :
    getKey (ps ++ qs) k = (getKey ps k).or (getKey qs k) := by
  induction ps with
  | nil => simp
  | cons e ps ih =>
    rw [List.cons_append, getKey_cons, getKey_cons, ih]
    cases h : (e.1 == k) <;> simp [h]

/-- The merge loop seen through lookups: an existing key keeps its value, a
fresh key receives the source's (first) value. -/
theorem getKey_mergeIfAbsent (src ps : JsonObject) (k : String) :
    getKey (mergeIfAbsent ps src) k = (getKey ps k).or (getKey src k) := by
  induction src generalizing ps with
  | nil => simp [mergeIfAbsent]
  | cons e src ih =>
    have hstep : mergeIfAbsent ps (e :: src)
        = mergeIfAbsent (if contains_key ps e.1 then ps else insertKey ps e.1 e.2) src := rfl
    rw [hstep, ih, getKey_cons]
    by_cases hc : contains_key ps e.1 = true
    · rw [if_pos hc]
      by_cases he : e.1 = k
      · subst he
        rw [contains_key_eq_isSome] at hc
        obtain ⟨v, hv⟩ := Option.isSome_iff_exists.mp hc
        simp [hv]
      · have he2 : (e.1 == k) = false := by simpa using he
        simp [he2]
    · rw [if_neg hc, insertKey, getKey_append]
      by_cases he : e.1 = k
      · subst he
        have hpk : getKey ps e.1 = none := by
          cases hgv : getKey ps e.1 with
          | none => rfl
          | some v =>
            rw [contains_key_eq_isSome, hgv] at hc
            simp at hc
        simp [hpk, getKey_cons]
      · have he2 : (e.1 == k) = false := by simpa using he
        simp [getKey_cons, he2]

/-! ### Stage lemmas -/

/-- Running a phase with no hooks changes nothing and records nothing. -/
@[simp]
theorem runHooks_nil (ph : Phase) (c : Client) (ps : JsonObject) :
    runHooks ph [] c ps = (none, c, []) := rfl

/-- Nothing after the merges ever touches the parameter set again: the tail of
the pipeline from the `after_validation` hooks on returns its parameter-set
argument unchanged. -/
theorem afterValidationStage_params (self : Endpoint) (info : CallInfo) (c2 : Client)
    (p3 : JsonObject) : (afterValidationStage self info c2 p3).params = p3 := by
  unfold afterValidationStage
  split
  · rfl
  · split
    · rfl
    · split
      · rfl
      · split <;> rfl

/-- With no declared coercer, validation and everything after it leave the
parameter set unchanged. -/
theorem validateStage_params_of_coercer_none (self : Endpoint) (info : CallInfo)
    (c2 : Client) (p2 : JsonObject) (hco : self.coercer = none) :
    (validateStage self info c2 p2).params = p2 := by
  have hv : self.validate p2 = Except.ok p2 := by simp [Endpoint.validate, hco]
  unfold validateStage
  rw [hv]
  simpa using afterValidationStage_params self info c2 p2

/-- With no declared coercer, the pipeline after the merges leaves the merged
parameter set unchanged. -/
theorem afterMerges_params (self : Endpoint) (info : CallInfo) (c : Client)
    (p2 : JsonObject) (hco : self.coercer = none) :
    (afterMerges self info c p2).params = p2 := by
  unfold afterMerges
  split
  · rfl
  · simpa using validateStage_params_of_coercer_none self info _ p2 hco

/-- C1: Merge precedence is first-writer-wins across the three parameter
sources.  For a call whose query string parses to the object `qobj` and whose
JSON body parses to the object `bobj`, the final parameter-set value of every
key `k` is the value already present before the merges (path captures and
outer seeds) when there is one, otherwise the query-string value when the
query string supplies `k`, otherwise the body value; in particular a key
already present is never overwritten by the query-string or body merge. -/
theorem merge_precedence_first_writer_wins
    (self : Endpoint) (ext : Externals) (params : JsonObject) (req : Request)
    (info : CallInfo) (q s : String) (qobj bobj : JsonObject) (bytes : List Nat)
    (k : String)
    (hb0 : info.before = [])
    (hco : self.coercer = none)
    (hq : req.query = some q)
    (hqp : ext.queryParse q = Except.ok (Json.obj qobj))
    (hjb : req.is_json_body = true)
    (hbytes : req.read_to_end = Except.ok bytes)
    (hutf : ext.utf8Decode bytes = some s)
    (hlen : 0 < s.length)
    (hjson : ext.jsonFromStr s = Except.ok (Json.obj bobj)) :
    getKey (self.call_decode ext params req info).params k
      = (getKey params k).or ((getKey qobj k).or (getKey bobj k))
    ∧ (contains_key params k = true →
        getKey (self.call_decode ext params req info).params k = getKey params k) := by
  have hreq : (Client.new req).request = req := rfl
  have hq1 : queryMerge ext params req = .okRes (mergeIfAbsent params qobj) := by
    simp [queryMerge, hq, hqp, Json.as_object]
  have hb1 : bodyMerge ext (mergeIfAbsent params qobj) req
      = .okRes (mergeIfAbsent (mergeIfAbsent params qobj) bobj) := by
    simp [bodyMerge, hjb, hbytes, hutf, hjson, hlen, Json.as_object]
  have hcd : self.call_decode ext params req info
      = afterMerges self info (Client.new req) (mergeIfAbsent (mergeIfAbsent params qobj) bobj) := by
    simp only [Endpoint.call_decode, hb0, runHooks_nil, mergeStage, hreq, hq1, hb1,
      List.nil_append]
  rw [hcd, afterMerges_params self info _ _ hco, getKey_mergeIfAbsent, getKey_mergeIfAbsent,
    Option.or_assoc]
  constructor
  · rfl
  · intro hck
    rw [contains_key_eq_isSome] at hck
    obtain ⟨v, hv⟩ := Option.isSome_iff_exists.mp hck
    simp [hv]

/-- Witness for C1: key "a" is supplied by all three sources (seed/captures
value "path", query value "q", body value "ba") and the final value is the
first writer's "path". -/
theorem merge_precedence_first_writer_wins_witness :
    getKey (c1endpoint.call_decode c1ext [("a", Json.str "path")] c1req infoEmpty).params "a"
      = some (Json.str "path") := by
  have h := merge_precedence_first_writer_wins c1endpoint c1ext [("a", Json.str "path")] c1req
    infoEmpty "a=q&b=qb" "x" [("a", Json.str "q"), ("b", Json.str "qb")]
    [("a", Json.str "ba"), ("c", Json.str "bc")] [120] "a"
    rfl rfl rfl rfl rfl rfl rfl (by decide) rfl
  exact h.1.trans rfl

/-- C4: when the remaining path does not match the compiled pattern,
`api_call` returns the `NotMatch` error kind — which is distinct from every
other error kind — and the parameter set, the request and the trace are
untouched: no captures applied, no hooks run, no merging performed. -/
theorem no_match_untouched
    (self : Endpoint) (ext : Externals) (rest_path : String) (params : JsonObject)
    (req : Request) (info : CallInfo)
    (hm : self.path.is_match rest_path = none) :
    self.api_call ext rest_path params req info
      = ⟨.errored .notMatch, params, req, []⟩
    ∧ Error.notMatch ≠ Error.queryStringDecode
    ∧ (∀ m, Error.notMatch ≠ Error.bodyDecode m)
    ∧ (∀ r, Error.notMatch ≠ Error.validation r)
    ∧ (∀ n m, Error.notMatch ≠ Error.app n m) := by
  refine ⟨by simp [Endpoint.api_call, hm], by simp, fun m => by simp, fun r => by simp,
    fun n m => by simp⟩

/-- Witness for C4: a pattern that rejects every path yields exactly the
`NotMatch` outcome with parameters, request and trace untouched. -/
theorem no_match_untouched_witness :
    epId.api_call extInert "/nope" [] reqPlain infoEmpty
      = ⟨.errored .notMatch, [], reqPlain, []⟩ :=
  (no_match_untouched epId extInert "/nope" [] reqPlain infoEmpty rfl).1

/-- C5: when the request carries a query string the query parser fails to
decode, the call aborts with `QueryStringDecodeError`, the parameter set is
exactly as it was before the merge attempt, and nothing past the query merge
(body merge, later hooks, validation, handler) runs. -/
theorem query_decode_error_aborts
    (self : Endpoint) (ext : Externals) (params : JsonObject) (req : Request)
    (info : CallInfo) (q : String) (c1 : Client) (evs1 : List Event)
    (hhooks : runHooks .before info.before (Client.new req) params = (none, c1, evs1))
    (hq : c1.request.query = some q)
    (hqp : ext.queryParse q = Except.error ()) :
    self.call_decode ext params req info
      = ⟨.errored .queryStringDecode, params, c1.request, evs1⟩ := by
  have hq1 : queryMerge ext params c1.request = .errored .queryStringDecode := by
    simp [queryMerge, hq, hqp]
  simp [Endpoint.call_decode, hhooks, mergeStage, hq1]

/-- Witness for C5: a malformed query string aborts the call with
`QueryStringDecodeError` and the seeded parameter set is returned intact. -/
theorem query_decode_error_aborts_witness :
    epId.call_decode extInert [("a", Json.str "1")] reqBadQuery infoEmpty
      = ⟨.errored .queryStringDecode, [("a", Json.str "1")], reqBadQuery, []⟩ :=
  query_decode_error_aborts epId extInert [("a", Json.str "1")] reqBadQuery infoEmpty
    "a==%" (Client.new reqBadQuery) [] rfl rfl rfl

/-- C6: a body that decodes to a zero-length string is not an error and
inserts no keys, even when the request declares a JSON-typed body. -/
theorem empty_body_no_error_no_keys
    (ext : Externals) (params : JsonObject) (req : Request) (bytes : List Nat) (s : String)
    (hjb : req.is_json_body = true)
    (hbytes : req.read_to_end = Except.ok bytes)
    (hutf : ext.utf8Decode bytes = some s)
    (hlen : s.length = 0) :
    bodyMerge ext params req = .okRes params := by
  simp [bodyMerge, hjb, hbytes, hutf, hlen]

/-- Witness for C6: a JSON-typed body decoding to the empty string leaves the
parameter set untouched and is no error. -/
theorem empty_body_no_error_no_keys_witness :
    bodyMerge extEmptyBody [("k", Json.null)] reqJsonBody
      = .okRes [("k", Json.null)] :=
  empty_body_no_error_no_keys extEmptyBody [("k", Json.null)] reqJsonBody [] "" rfl rfl rfl rfl

/-- C7: an endpoint with no declared schema always succeeds validation and
does not mutate the parameter set. -/
theorem validate_no_schema (self : Endpoint) (params : JsonObject)
    (hco : self.coercer = none) :
    self.validate params = Except.ok params := by
  simp [Endpoint.validate, hco]

/-- Witness for C7: validation on a schemaless endpoint returns the
parameters unchanged. -/
theorem validate_no_schema_witness :
    epNoHandler.validate [("a", Json.null)] = Except.ok [("a", Json.null)] :=
  validate_no_schema epNoHandler [("a", Json.null)] rfl

/-- Every event recorded by a hook phase is a `hookRun` of that phase with
the phase's parameter-set snapshot. -/
theorem runHooksFrom_events (ph : Phase) (i : Nat) (hooks : List Callback)
    (c : Client) (ps : JsonObject) :
    ∀ ev ∈ (runHooksFrom ph i hooks c ps).2.2, ∃ j, ev = Event.hookRun ph j ps := by
  induction hooks generalizing i c with
  | nil => intro ev h; simp [runHooksFrom] at h
  | cons cb rest ih =>
    intro ev h
    cases hcb : cb c with
    | error e =>
      simp only [runHooksFrom, hcb, List.mem_singleton] at h
      exact ⟨i, h⟩
    | ok c2 =>
      simp only [runHooksFrom, hcb, List.mem_cons] at h
      rcases h with h | h
      · exact ⟨i, h⟩
      · exact ih (i + 1) c2 ev h

/-- A hook phase never records a handler invocation. -/
theorem handlerRunCount_runHooks (ph : Phase) (hooks : List Callback)
    (c : Client) (ps : JsonObject) :
    handlerRunCount (runHooks ph hooks c ps).2.2 = 0 := by
  rw [handlerRunCount, List.countP_eq_zero]
  intro ev hev
  obtain ⟨j, rfl⟩ := runHooksFrom_events ph 0 hooks c ps ev hev
  simp [isHandlerRun]

/-- C8 (amended): a non-empty JSON-typed body that parses to a non-object
JSON value makes the body merge panic through `as_object().unwrap()` — the
call crashes rather than returning an error — while for an object-rooted
body the merge is total and inserts exactly the not-yet-present top-level
object keys. -/
theorem body_non_object_panics
    (ext : Externals) (params : JsonObject) (req : Request) (bytes : List Nat)
    (s : String) (j : Json)
    (hjb : req.is_json_body = true)
    (hbytes : req.read_to_end = Except.ok bytes)
    (hutf : ext.utf8Decode bytes = some s)
    (hlen : 0 < s.length)
    (hjson : ext.jsonFromStr s = Except.ok j)
    (hobj : j.as_object = none) :
    bodyMerge ext params req = .panicked unwrapMsg
    ∧ (∀ (ext2 : Externals) (params2 : JsonObject) (req2 : Request) (bytes2 : List Nat)
        (s2 : String) (bobj : JsonObject),
        req2.is_json_body = true → req2.read_to_end = Except.ok bytes2 →
        ext2.utf8Decode bytes2 = some s2 → 0 < s2.length →
        ext2.jsonFromStr s2 = Except.ok (Json.obj bobj) →
        bodyMerge ext2 params2 req2 = .okRes (mergeIfAbsent params2 bobj)) := by
  constructor
  · simp [bodyMerge, hjb, hbytes, hutf, hlen, hjson, hobj]
  · intro ext2 params2 req2 bytes2 s2 bobj h1 h2 h3 h4 h5
    simp [bodyMerge, h1, h2, h3, h4, h5, Json.as_object]

/-- Counterexample to C8 as stated: with body bytes `[1]` (a JSON array, not
an object), the call crashes — `call_decode` panics in
`as_object().unwrap()` — instead of rejecting the body with an error. -/
theorem body_non_object_crash_counterexample :
    (epId.call_decode extArrayBody [] c8req infoEmpty).result = .panicked unwrapMsg
    ∧ ∀ e, (epId.call_decode extArrayBody [] c8req infoEmpty).result
        ≠ DispatchResult.errored e := by
  constructor
  · rfl
  · intro e h
    rw [show (epId.call_decode extArrayBody [] c8req infoEmpty).result
        = DispatchResult.panicked unwrapMsg from rfl] at h
    exact DispatchResult.noConfusion h

/-- Witness for C8 (amended): the array-rooted body `[1]` makes the body
merge panic. -/
theorem body_non_object_panics_witness :
    bodyMerge extArrayBody [] c8req = .panicked unwrapMsg :=
  (body_non_object_panics extArrayBody [] c8req [91, 49, 93] "[1]" (Json.arr [Json.num 1])
    rfl rfl rfl (by decide) rfl rfl).1

/-- C10: when the query string parses successfully to a non-object JSON
value, `call_decode` panics through `as_object().unwrap()` instead of
returning `QueryStringDecodeError`; when the parser yields an object, the
query-merge branch is total. -/
theorem query_non_object_panics
    (self : Endpoint) (ext : Externals) (params : JsonObject) (req : Request)
    (info : CallInfo) (q : String) (j : Json)
    (hb0 : info.before = [])
    (hq : req.query = some q)
    (hqp : ext.queryParse q = Except.ok j)
    (hobj : j.as_object = none) :
    (self.call_decode ext params req info).result = .panicked unwrapMsg
    ∧ (self.call_decode ext params req info).result ≠ .errored .queryStringDecode
    ∧ (∀ (ext2 : Externals) (params2 : JsonObject) (req2 : Request) (q2 : String)
        (qobj : JsonObject),
        req2.query = some q2 → ext2.queryParse q2 = Except.ok (Json.obj qobj) →
        queryMerge ext2 params2 req2 = .okRes (mergeIfAbsent params2 qobj)) := by
  have hreq : (Client.new req).request = req := rfl
  have hq1 : queryMerge ext params req = .panicked unwrapMsg := by
    simp [queryMerge, hq, hqp, hobj]
  have hr : (self.call_decode ext params req info).result = .panicked unwrapMsg := by
    simp [Endpoint.call_decode, hb0, runHooks_nil, mergeStage, hreq, hq1]
  refine ⟨hr, ?_, ?_⟩
  · rw [hr]; simp
  · intro ext2 params2 req2 q2 qobj h1 h2
    simp [queryMerge, h1, h2, Json.as_object]

/-- Witness for C10: a query string parsing to the JSON array `[]` makes the
call panic. -/
theorem query_non_object_panics_witness :
    (epId.call_decode extArrayQuery [] reqWithQuery infoEmpty).result
      = .panicked unwrapMsg :=
  (query_non_object_panics epId extArrayQuery [] reqWithQuery infoEmpty "a=1" (Json.arr [])
    rfl rfl rfl rfl).1

/-- The handler-invocation count is additive over traces. -/
theorem handlerRunCount_append (l1 l2 : List Event) :
    handlerRunCount (l1 ++ l2) = handlerRunCount l1 + handlerRunCount l2 := by
  simp [handlerRunCount, List.countP_append]

/-- C9: handler presence is an unstated precondition of dispatch.  On a call
that passes matching, merging, hooks and validation, an endpoint whose
handler was never attached makes `call_decode` panic through
`self.handler.unwrap()` instead of returning an error value; with a handler
attached the handler stage is total (never panics) and the handler runs
exactly once. -/
theorem handler_presence_precondition
    (self : Endpoint) (ext : Externals) (params : JsonObject) (req : Request)
    (info : CallInfo)
    (hb0 : info.before = [])
    (hbv : info.before_validation = [])
    (hav : info.after_validation = [])
    (hq : req.query = none)
    (hjb : req.is_json_body = false)
    (hco : self.coercer = none) :
    (self.handler = none →
      (self.call_decode ext params req info).result = .panicked unwrapMsg)
    ∧ (∀ h, self.handler = some h →
        handlerRunCount (self.call_decode ext params req info).events = 1
        ∧ ∀ m, (self.call_decode ext params req info).result ≠ .panicked m) := by
  have hreq : (Client.new req).request = req := rfl
  have hq1 : queryMerge ext params req = .okRes params := by simp [queryMerge, hq]
  have hb1 : bodyMerge ext params req = .okRes params := by simp [bodyMerge, hjb]
  have hv : self.validate params = Except.ok params := by simp [Endpoint.validate, hco]
  constructor
  · intro hh
    simp [Endpoint.call_decode, hb0, runHooks_nil, mergeStage, hreq, hq1, hb1,
      afterMerges, hbv, validateStage, hv, afterValidationStage, hav, hh]
  · intro h hh
    have key : ∀ (c : Client),
        handlerRunCount (afterValidationStage self info c params).events = 1
        ∧ ∀ m, (afterValidationStage self info c params).result ≠ .panicked m := by
      intro c
      unfold afterValidationStage
      simp only [hav, runHooks_nil, hh]
      cases hres : h c (Json.obj params) with
      | error e =>
        simp only [hres]
        exact ⟨by simp [handlerRunCount, isHandlerRun], fun m => by simp⟩
      | ok c4 =>
        rcases hafter : runHooks .after info.after c4 params with ⟨o, c5, evs4⟩
        have h0 : handlerRunCount evs4 = 0 := by
          have h1 := handlerRunCount_runHooks .after info.after c4 params
          rw [hafter] at h1
          exact h1
        cases o with
        | some e =>
          simp only [hres, hafter]
          refine ⟨?_, fun m => by simp⟩
          rw [handlerRunCount_append, handlerRunCount_append, h0]
          rfl
        | none =>
          simp only [hres, hafter]
          refine ⟨?_, fun m => by simp⟩
          rw [handlerRunCount_append, handlerRunCount_append, h0]
          rfl
    have hcd : (self.call_decode ext params req info).events
          = Event.validateRun params :: (afterValidationStage self info (Client.new req) params).events
        ∧ (self.call_decode ext params req info).result
          = (afterValidationStage self info (Client.new req) params).result := by
      constructor <;>
        simp [Endpoint.call_decode, hb0, runHooks_nil, mergeStage, hreq, hq1, hb1,
          afterMerges, hbv, validateStage, hv]
    obtain ⟨k1, k2⟩ := key (Client.new req)
    constructor
    · rw [hcd.1]
      simpa [handlerRunCount, List.countP_cons, isHandlerRun] using k1
    · intro m
      rw [hcd.2]
      exact k2 m

/-- Witness for C9: with no handler attached and an otherwise trivial call,
`call_decode` panics with the `unwrap` message. -/
theorem handler_presence_precondition_witness :
    (epNoHandler.call_decode extInert [] reqPlain infoEmpty).result
      = .panicked unwrapMsg :=
  (handler_presence_precondition epNoHandler extInert [] reqPlain infoEmpty
    rfl rfl rfl rfl rfl rfl).1 rfl

/-- Splitting a hook phase at the first failing callback: when every callback
in `hs1` succeeds and `cb` then fails with `e`, the whole phase stops at `cb`
with error `e`, the client as `cb` received it, and a trace covering exactly
`hs1` and `cb` — the callbacks in `hs2` never run. -/
theorem runHooksFrom_error_append (ph : Phase) (hs1 : List Callback) (cb : Callback)
    (hs2 : List Callback) (c c1 : Client) (ps : JsonObject) (evs : List Event)
    (e : Error) (i : Nat)
    (hok : runHooksFrom ph i hs1 c ps = (none, c1, evs))
    (herr : cb c1 = Except.error e) :
    runHooksFrom ph i (hs1 ++ cb :: hs2) c ps
      = (some e, c1, evs ++ [Event.hookRun ph (i + hs1.length) ps]) := by
  induction hs1 generalizing i c evs with
  | nil =>
    simp only [runHooksFrom, Prod.mk.injEq, true_and] at hok
    obtain ⟨rfl, rfl⟩ := hok
    simp [runHooksFrom, herr]
  | cons cb1 rest ih =>
    cases hcb : cb1 c with
    | error e1 =>
      simp only [runHooksFrom, hcb, Prod.mk.injEq] at hok
      exact absurd hok.1 (by simp)
    | ok c2 =>
      rcases hr : runHooksFrom ph (i + 1) rest c2 ps with ⟨o, cX, evsX⟩
      simp only [runHooksFrom, hcb, hr, Prod.mk.injEq] at hok
      obtain ⟨rfl, rfl, rfl⟩ := hok
      have harith : i + 1 + rest.length = i + (rest.length + 1) := by omega
      have htail := ih c2 evsX (i + 1) (by rw [hr])
      show (match cb1 c with
        | .error e => (some e, c, [Event.hookRun ph i ps])
        | .ok c2 =>
          let r := runHooksFrom ph (i + 1) (rest ++ cb :: hs2) c2 ps
          (r.1, r.2.1, Event.hookRun ph i ps :: r.2.2)) = _
      rw [hcb]
      simp only [htail]
      simp [harith]

/-- C2: the pipeline fails fast.  (a) Within any phase, the first failing
hook terminates the phase with its error: earlier hooks ran, later hooks in
the same phase did not.  (b) An error from a `before_validation` hook makes
the whole remaining pipeline return exactly that error: the trace shows no
validation, no `after_validation` hook, no handler and no `after` hook ran,
and the parameter set is left as merged.  (c) An error from the handler
aborts the call with that error and no `after` hook runs.  (d) An error from
a `before` hook makes `call_decode` return it with no merging performed and
nothing else run. -/
theorem fail_fast_pipeline :
    (∀ (ph : Phase) (hs1 hs2 : List Callback) (cb : Callback) (c c1 : Client)
        (ps : JsonObject) (evs : List Event) (e : Error),
      runHooksFrom ph 0 hs1 c ps = (none, c1, evs) →
      cb c1 = Except.error e →
      runHooks ph (hs1 ++ cb :: hs2) c ps
        = (some e, c1, evs ++ [Event.hookRun ph hs1.length ps]))
    ∧ (∀ (self : Endpoint) (info : CallInfo) (c : Client) (p2 : JsonObject)
        (e : Error) (c2 : Client) (evs2 : List Event),
      runHooks .before_validation info.before_validation c p2 = (some e, c2, evs2) →
      afterMerges self info c p2 = ⟨.errored e, p2, c2.request, evs2⟩
      ∧ (∀ p, Event.validateRun p ∉ evs2)
      ∧ (∀ i p, Event.hookRun .after_validation i p ∉ evs2)
      ∧ (∀ p, Event.handlerRun p ∉ evs2)
      ∧ (∀ i p, Event.hookRun .after i p ∉ evs2))
    ∧ (∀ (self : Endpoint) (info : CallInfo) (c2 : Client) (p3 : JsonObject)
        (h : EndpointHandler) (e : Error) (c3 : Client) (evs3 : List Event),
      self.handler = some h →
      runHooks .after_validation info.after_validation c2 p3 = (none, c3, evs3) →
      h c3 (Json.obj p3) = Except.error e →
      afterValidationStage self info c2 p3
        = ⟨.errored e, p3, c3.request, evs3 ++ [Event.handlerRun p3]⟩
      ∧ (∀ i p, Event.hookRun .after i p ∉ evs3 ++ [Event.handlerRun p3]))
    ∧ (∀ (self : Endpoint) (ext : Externals) (params : JsonObject) (req : Request)
        (info : CallInfo) (e : Error) (c1 : Client) (evs1 : List Event),
      runHooks .before info.before (Client.new req) params = (some e, c1, evs1) →
      self.call_decode ext params req info
        = ⟨.errored e, params, c1.request, evs1⟩) := by
  refine ⟨?_, ?_, ?_, ?_⟩
  · intro ph hs1 hs2 cb c c1 ps evs e hok herr
    have h := runHooksFrom_error_append ph hs1 cb hs2 c c1 ps evs e 0 hok herr
    simpa [runHooks] using h
  · intro self info c p2 e c2 evs2 hrun
    have hall : ∀ ev ∈ evs2, ∃ j, ev = Event.hookRun .before_validation j p2 := by
      intro ev hev
      apply runHooksFrom_events .before_validation 0 info.before_validation c p2
      have heq : runHooksFrom Phase.before_validation 0 info.before_validation c p2
          = (some e, c2, evs2) := hrun
      rw [heq]
      exact hev
    refine ⟨by simp [afterMerges, hrun], ?_, ?_, ?_, ?_⟩
    · intro p hp
      obtain ⟨j, hj⟩ := hall _ hp
      exact Event.noConfusion hj
    · intro i p hp
      obtain ⟨j, hj⟩ := hall _ hp
      simp at hj
    · intro p hp
      obtain ⟨j, hj⟩ := hall _ hp
      exact Event.noConfusion hj
    · intro i p hp
      obtain ⟨j, hj⟩ := hall _ hp
      simp at hj
  · intro self info c2 p3 h e c3 evs3 hh hrun herr
    have hall : ∀ ev ∈ evs3, ∃ j, ev = Event.hookRun .after_validation j p3 := by
      intro ev hev
      apply runHooksFrom_events .after_validation 0 info.after_validation c2 p3
      have heq : runHooksFrom Phase.after_validation 0 info.after_validation c2 p3
          = (none, c3, evs3) := hrun
      rw [heq]
      exact hev
    refine ⟨by simp [afterValidationStage, hrun, hh, herr], ?_⟩
    intro i p hp
    rw [List.mem_append] at hp
    rcases hp with hp | hp
    · obtain ⟨j, hj⟩ := hall _ hp
      simp at hj
    · simp at hp
  · intro self ext params req info e c1 evs1 hrun
    simp [Endpoint.call_decode, hrun]

/-- Witness for C2: a failing `before` hook aborts the call with its error;
only that hook's event is traced and the parameter set is untouched. -/
theorem fail_fast_pipeline_witness :
    epId.call_decode extInert [] reqPlain infoFailBefore
      = ⟨.errored (Error.app 1 "boom"), [], reqPlain, [Event.hookRun .before 0 []]⟩ :=
  fail_fast_pipeline.2.2.2 epId extInert [] reqPlain infoFailBefore (Error.app 1 "boom")
    (Client.new reqPlain) [Event.hookRun .before 0 []] rfl

/-- Membership form of `runHooksFrom_events` for a destructured phase run. -/
theorem mem_runHooks_events {ph : Phase} {hooks : List Callback} {c : Client}
    {ps : JsonObject} {o : Option Error} {cX : Client} {evsX : List Event}
    (heq : runHooks ph hooks c ps = (o, cX, evsX)) :
    ∀ ev ∈ evsX, ∃ j, ev = Event.hookRun ph j ps := by
  intro ev hev
  apply runHooksFrom_events ph 0 hooks c ps
  have heq2 : runHooksFrom ph 0 hooks c ps = (o, cX, evsX) := heq
  rw [heq2]
  exact hev

/-- A `hookRun` event inside a phase run carries that phase and the phase's
parameter snapshot. -/
theorem hookRun_mem_phase_snapshot {ph : Phase} {hooks : List Callback} {c : Client}
    {ps : JsonObject} {o : Option Error} {cX : Client} {evsX : List Event}
    (heq : runHooks ph hooks c ps = (o, cX, evsX)) {ph2 : Phase} {i : Nat}
    {p : JsonObject} (hmem : Event.hookRun ph2 i p ∈ evsX) : ph2 = ph ∧ p = ps := by
  obtain ⟨j, hj⟩ := mem_runHooks_events heq _ hmem
  injection hj with h1 h2 h3
  exact ⟨h1, h3⟩

/-- A phase run records no validation event. -/
theorem validateRun_not_mem_runHooks {ph : Phase} {hooks : List Callback} {c : Client}
    {ps : JsonObject} {o : Option Error} {cX : Client} {evsX : List Event}
    (heq : runHooks ph hooks c ps = (o, cX, evsX)) (p : JsonObject) :
    Event.validateRun p ∉ evsX := by
  intro hmem
  obtain ⟨j, hj⟩ := mem_runHooks_events heq _ hmem
  exact Event.noConfusion hj

/-- A phase run records no handler event. -/
theorem handlerRun_not_mem_runHooks {ph : Phase} {hooks : List Callback} {c : Client}
    {ps : JsonObject} {o : Option Error} {cX : Client} {evsX : List Event}
    (heq : runHooks ph hooks c ps = (o, cX, evsX)) (p : JsonObject) :
    Event.handlerRun p ∉ evsX := by
  intro hmem
  obtain ⟨j, hj⟩ := mem_runHooks_events heq _ hmem
  exact Event.noConfusion hj

/-- Every event of a phase run has that phase's rank. -/
theorem rank_of_mem_runHooks {ph : Phase} {hooks : List Callback} {c : Client}
    {ps : JsonObject} {o : Option Error} {cX : Client} {evsX : List Event}
    (heq : runHooks ph hooks c ps = (o, cX, evsX)) :
    ∀ ev ∈ evsX, evRank ev = phaseRank ph := by
  intro ev hev
  obtain ⟨j, rfl⟩ := mem_runHooks_events heq _ hev
  rfl

/-- A trace whose events all share one rank is ordered. -/
theorem eventsOrdered_of_const (evs : List Event) (r : Nat)
    (h : ∀ ev ∈ evs, evRank ev = r) : EventsOrdered evs := by
  unfold EventsOrdered
  induction evs with
  | nil => exact List.Pairwise.nil
  | cons a l ih =>
    refine List.Pairwise.cons ?_ (ih fun ev hev => h ev (List.mem_cons_of_mem a hev))
    intro b hb
    rw [h a (List.mem_cons_self a l), h b (List.mem_cons_of_mem a hb)]

/-- Ordered traces concatenate to an ordered trace when all ranks on the left
are bounded by all ranks on the right. -/
theorem eventsOrdered_append (l1 l2 : List Event)
    (h1 : EventsOrdered l1) (h2 : EventsOrdered l2)
    (hcross : ∀ a ∈ l1, ∀ b ∈ l2, evRank a ≤ evRank b) :
    EventsOrdered (l1 ++ l2) := by
  unfold EventsOrdered at *
  exact List.pairwise_append.mpr ⟨h1, h2, hcross⟩

/-- The trace of one phase run is ordered. -/
theorem ordered_runHooks {ph : Phase} {hooks : List Callback} {c : Client}
    {ps : JsonObject} {o : Option Error} {cX : Client} {evsX : List Event}
    (heq : runHooks ph hooks c ps = (o, cX, evsX)) : EventsOrdered evsX :=
  eventsOrdered_of_const evsX (phaseRank ph) (rank_of_mem_runHooks heq)

/-- Case analysis on the trace of the pipeline tail from the
`after_validation` hooks on. -/
theorem avs_events_cases (self : Endpoint) (info : CallInfo) (c2 : Client)
    (p3 : JsonObject) :
    ∃ o c3 evs3, runHooks .after_validation info.after_validation c2 p3 = (o, c3, evs3)
    ∧ ((afterValidationStage self info c2 p3).events = evs3
      ∨ (afterValidationStage self info c2 p3).events = evs3 ++ [Event.handlerRun p3]
      ∨ (∃ c4 o4 c5 evs4, runHooks .after info.after c4 p3 = (o4, c5, evs4)
          ∧ (afterValidationStage self info c2 p3).events
            = evs3 ++ ([Event.handlerRun p3] ++ evs4))) := by
  rcases h1 : runHooks .after_validation info.after_validation c2 p3 with ⟨o, c3, evs3⟩
  refine ⟨o, c3, evs3, rfl, ?_⟩
  unfold afterValidationStage
  rw [h1]
  cases o with
  | some e => exact Or.inl rfl
  | none =>
    cases hh : self.handler with
    | none => exact Or.inl rfl
    | some h =>
      cases hres : h c3 (Json.obj p3) with
      | error e => exact Or.inr (Or.inl (by simp [hres]))
      | ok c4 =>
        rcases h4 : runHooks .after info.after c4 p3 with ⟨o4, c5, evs4⟩
        refine Or.inr (Or.inr ⟨c4, o4, c5, evs4, h4, ?_⟩)
        cases o4 with
        | some e => simp [hres, h4]
        | none => simp [hres, h4]

/-- Case analysis on the trace from validation on. -/
theorem vs_events_cases (self : Endpoint) (info : CallInfo) (c2 : Client)
    (p2 : JsonObject) :
    (validateStage self info c2 p2).events = [Event.validateRun p2]
    ∨ (∃ p3, self.validate p2 = Except.ok p3
        ∧ (validateStage self info c2 p2).events
          = Event.validateRun p2 :: (afterValidationStage self info c2 p3).events) := by
  unfold validateStage
  cases hv : self.validate p2 with
  | error e => exact Or.inl rfl
  | ok p3 => exact Or.inr ⟨p3, rfl, rfl⟩

/-- Case analysis on the trace from the `before_validation` hooks on. -/
theorem am_events_cases (self : Endpoint) (info : CallInfo) (c : Client)
    (p2 : JsonObject) :
    ∃ o c2 evs2, runHooks .before_validation info.before_validation c p2 = (o, c2, evs2)
    ∧ ((afterMerges self info c p2).events = evs2
      ∨ (afterMerges self info c p2).events
          = evs2 ++ (validateStage self info c2 p2).events) := by
  rcases h1 : runHooks .before_validation info.before_validation c p2 with ⟨o, c2, evs2⟩
  refine ⟨o, c2, evs2, rfl, ?_⟩
  unfold afterMerges
  rw [h1]
  cases o with
  | some e => exact Or.inl rfl
  | none => exact Or.inr rfl

/-- Case analysis on the trace of the merge stage: no events of its own, and
the rest of the pipeline runs only when both merges succeed. -/
theorem ms_events_cases (self : Endpoint) (ext : Externals) (info : CallInfo)
    (c : Client) (p0 : JsonObject) :
    (mergeStage self ext info c p0).events = []
    ∨ (∃ p1 p2, queryMerge ext p0 c.request = .okRes p1
        ∧ bodyMerge ext p1 c.request = .okRes p2
        ∧ (mergeStage self ext info c p0).events = (afterMerges self info c p2).events) := by
  unfold mergeStage
  cases hq : queryMerge ext p0 c.request with
  | panicked m => exact Or.inl rfl
  | errored e => exact Or.inl rfl
  | okRes p1 =>
    cases hb : bodyMerge ext p1 c.request with
    | panicked m => exact Or.inl (by simp [hb])
    | errored e => exact Or.inl (by simp [hb])
    | okRes p2 => exact Or.inr ⟨p1, p2, rfl, hb, by simp [hb]⟩

/-- Case analysis on the whole trace of `call_decode`. -/
theorem cd_events_cases (self : Endpoint) (ext : Externals) (params : JsonObject)
    (req : Request) (info : CallInfo) :
    ∃ o c1 evs1, runHooks .before info.before (Client.new req) params = (o, c1, evs1)
    ∧ ((self.call_decode ext params req info).events = evs1
      ∨ (o = none ∧ (self.call_decode ext params req info).events
          = evs1 ++ (mergeStage self ext info c1 params).events)) := by
  rcases h1 : runHooks .before info.before (Client.new req) params with ⟨o, c1, evs1⟩
  refine ⟨o, c1, evs1, rfl, ?_⟩
  unfold Endpoint.call_decode
  cases o with
  | some e =>
    simp only [h1]
    exact Or.inl trivial
  | none =>
    simp only [h1]
    exact Or.inr ⟨trivial, trivial⟩

/-- Trace properties of the pipeline tail from the `after_validation` hooks
on: all events rank at least `after_validation`, the trace is ordered, every
`after_validation` hook observes the validated parameter set `p3`, an `after`
hook event implies the handler ran (observing `p3`), and no validation,
`before` or `before_validation` event occurs. -/
theorem avs_props (self : Endpoint) (info : CallInfo) (c2 : Client) (p3 : JsonObject) :
    (∀ ev ∈ (afterValidationStage self info c2 p3).events, 3 ≤ evRank ev)
    ∧ EventsOrdered (afterValidationStage self info c2 p3).events
    ∧ (∀ i p, Event.hookRun .after_validation i p ∈ (afterValidationStage self info c2 p3).events
        → p = p3)
    ∧ (∀ i p, Event.hookRun .after i p ∈ (afterValidationStage self info c2 p3).events →
        p = p3 ∧ Event.handlerRun p3 ∈ (afterValidationStage self info c2 p3).events)
    ∧ (∀ p, Event.validateRun p ∉ (afterValidationStage self info c2 p3).events)
    ∧ (∀ i p, Event.hookRun .before i p ∉ (afterValidationStage self info c2 p3).events)
    ∧ (∀ i p, Event.hookRun .before_validation i p ∉ (afterValidationStage self info c2 p3).events) := by
  obtain ⟨o, c3, evs3, h1, hcases⟩ := avs_events_cases self info c2 p3
  have hrank3 := rank_of_mem_runHooks h1
  have hord3 := ordered_runHooks h1
  have hmid : ∀ ev ∈ [Event.handlerRun p3], evRank ev = 4 := by
    intro ev hev
    rw [List.mem_singleton] at hev
    subst hev
    rfl
  rcases hcases with he | he | ⟨c4, o4, c5, evs4, h4, he⟩ <;> rw [he]
  · refine ⟨?_, hord3, ?_, ?_, ?_, ?_, ?_⟩
    · intro ev hev
      exact (hrank3 ev hev).ge
    · intro i p hp
      exact (hookRun_mem_phase_snapshot h1 hp).2
    · intro i p hp
      exact absurd (hookRun_mem_phase_snapshot h1 hp).1 (by simp)
    · intro p
      exact validateRun_not_mem_runHooks h1 p
    · intro i p hp
      exact absurd (hookRun_mem_phase_snapshot h1 hp).1 (by simp)
    · intro i p hp
      exact absurd (hookRun_mem_phase_snapshot h1 hp).1 (by simp)
  · refine ⟨?_, ?_, ?_, ?_, ?_, ?_, ?_⟩
    · intro ev hev
      rcases List.mem_append.mp hev with hv | hv
      · exact (hrank3 ev hv).ge
      · rw [hmid ev hv]
        decide
    · refine eventsOrdered_append _ _ hord3 (eventsOrdered_of_const _ 4 hmid) ?_
      intro a ha b hb
      rw [hrank3 a ha, hmid b hb]
      decide
    · intro i p hp
      rcases List.mem_append.mp hp with hv | hv
      · exact (hookRun_mem_phase_snapshot h1 hv).2
      · rw [List.mem_singleton] at hv
        exact Event.noConfusion hv
    · intro i p hp
      rcases List.mem_append.mp hp with hv | hv
      · exact absurd (hookRun_mem_phase_snapshot h1 hv).1 (by simp)
      · rw [List.mem_singleton] at hv
        exact Event.noConfusion hv
    · intro p hp
      rcases List.mem_append.mp hp with hv | hv
      · exact validateRun_not_mem_runHooks h1 p hv
      · rw [List.mem_singleton] at hv
        exact Event.noConfusion hv
    · intro i p hp
      rcases List.mem_append.mp hp with hv | hv
      · exact absurd (hookRun_mem_phase_snapshot h1 hv).1 (by simp)
      · rw [List.mem_singleton] at hv
        exact Event.noConfusion hv
    · intro i p hp
      rcases List.mem_append.mp hp with hv | hv
      · exact absurd (hookRun_mem_phase_snapshot h1 hv).1 (by simp)
      · rw [List.mem_singleton] at hv
        exact Event.noConfusion hv
  · have hrank4 := rank_of_mem_runHooks h4
    have hord4 := ordered_runHooks h4
    refine ⟨?_, ?_, ?_, ?_, ?_, ?_, ?_⟩
    · intro ev hev
      rcases List.mem_append.mp hev with hv | hv
      · exact (hrank3 ev hv).ge
      · rcases List.mem_append.mp hv with hw | hw
        · rw [hmid ev hw]
          decide
        · rw [hrank4 ev hw]
          decide
    · refine eventsOrdered_append _ _ hord3 ?_ ?_
      · refine eventsOrdered_append _ _ (eventsOrdered_of_const _ 4 hmid) hord4 ?_
        intro a ha b hb
        rw [hmid a ha, hrank4 b hb]
        decide
      · intro a ha b hb
        rw [hrank3 a ha]
        rcases List.mem_append.mp hb with hw | hw
        · rw [hmid b hw]
          decide
        · rw [hrank4 b hw]
          decide
    · intro i p hp
      rcases List.mem_append.mp hp with hv | hv
      · exact (hookRun_mem_phase_snapshot h1 hv).2
      · rcases List.mem_append.mp hv with hw | hw
        · rw [List.mem_singleton] at hw
          exact Event.noConfusion hw
        · exact absurd (hookRun_mem_phase_snapshot h4 hw).1 (by simp)
    · intro i p hp
      rcases List.mem_append.mp hp with hv | hv
      · exact absurd (hookRun_mem_phase_snapshot h1 hv).1 (by simp)
      · rcases List.mem_append.mp hv with hw | hw
        · rw [List.mem_singleton] at hw
          exact Event.noConfusion hw
        · refine ⟨(hookRun_mem_phase_snapshot h4 hw).2, ?_⟩
          refine List.mem_append.mpr (Or.inr (List.mem_append.mpr (Or.inl ?_)))
          exact List.mem_singleton.mpr rfl
    · intro p hp
      rcases List.mem_append.mp hp with hv | hv
      · exact validateRun_not_mem_runHooks h1 p hv
      · rcases List.mem_append.mp hv with hw | hw
        · rw [List.mem_singleton] at hw
          exact Event.noConfusion hw
        · exact validateRun_not_mem_runHooks h4 p hw
    · intro i p hp
      rcases List.mem_append.mp hp with hv | hv
      · exact absurd (hookRun_mem_phase_snapshot h1 hv).1 (by simp)
      · rcases List.mem_append.mp hv with hw | hw
        · rw [List.mem_singleton] at hw
          exact Event.noConfusion hw
        · exact absurd (hookRun_mem_phase_snapshot h4 hw).1 (by simp)
    · intro i p hp
      rcases List.mem_append.mp hp with hv | hv
      · exact absurd (hookRun_mem_phase_snapshot h1 hv).1 (by simp)
      · rcases List.mem_append.mp hv with hw | hw
        · rw [List.mem_singleton] at hw
          exact Event.noConfusion hw
        · exact absurd (hookRun_mem_phase_snapshot h4 hw).1 (by simp)

/-- Trace properties of the pipeline from validation on: all events rank at
least validation, the trace is ordered, every `after_validation` hook
observes the output of a successful validation whose event is in the trace,
an `after` hook event implies a handler event, and no `before` or
`before_validation` event occurs. -/
theorem vs_props (self : Endpoint) (info : CallInfo) (c2 : Client) (p2 : JsonObject) :
    (∀ ev ∈ (validateStage self info c2 p2).events, 2 ≤ evRank ev)
    ∧ EventsOrdered (validateStage self info c2 p2).events
    ∧ (∀ i p, Event.hookRun .after_validation i p ∈ (validateStage self info c2 p2).events →
        ∃ px py, Event.validateRun px ∈ (validateStage self info c2 p2).events
          ∧ self.validate px = Except.ok py ∧ p = py)
    ∧ (∀ i p, Event.hookRun .after i p ∈ (validateStage self info c2 p2).events →
        Event.handlerRun p ∈ (validateStage self info c2 p2).events)
    ∧ (∀ i p, Event.hookRun .before i p ∉ (validateStage self info c2 p2).events)
    ∧ (∀ i p, Event.hookRun .before_validation i p ∉ (validateStage self info c2 p2).events) := by
  rcases vs_events_cases self info c2 p2 with he | ⟨p3, hv, he⟩ <;> rw [he]
  · refine ⟨?_, ?_, ?_, ?_, ?_, ?_⟩
    · intro ev hev
      rw [List.mem_singleton] at hev
      subst hev
      exact Nat.le_refl 2
    · refine eventsOrdered_of_const _ 2 ?_
      intro ev hev
      rw [List.mem_singleton] at hev
      subst hev
      rfl
    · intro i p hp
      rw [List.mem_singleton] at hp
      exact Event.noConfusion hp
    · intro i p hp
      rw [List.mem_singleton] at hp
      exact Event.noConfusion hp
    · intro i p hp
      rw [List.mem_singleton] at hp
      exact Event.noConfusion hp
    · intro i p hp
      rw [List.mem_singleton] at hp
      exact Event.noConfusion hp
  · obtain ⟨a1, a2, a3, a4, a5, a6, a7⟩ := avs_props self info c2 p3
    refine ⟨?_, ?_, ?_, ?_, ?_, ?_⟩
    · intro ev hev
      rcases List.mem_cons.mp hev with hv2 | hv2
      · subst hv2
        exact Nat.le_refl 2
      · exact le_trans (show (2 : Nat) ≤ 3 by decide) (a1 ev hv2)
    · refine List.Pairwise.cons ?_ a2
      intro b hb
      exact le_trans (show (2 : Nat) ≤ 3 by decide) (a1 b hb)
    · intro i p hp
      rcases List.mem_cons.mp hp with hv2 | hv2
      · exact Event.noConfusion hv2
      · exact ⟨p2, p3, List.mem_cons_self _ _, hv, a3 i p hv2⟩
    · intro i p hp
      rcases List.mem_cons.mp hp with hv2 | hv2
      · exact Event.noConfusion hv2
      · obtain ⟨rfl, hmem⟩ := a4 i p hv2
        exact List.mem_cons_of_mem _ hmem
    · intro i p hp
      rcases List.mem_cons.mp hp with hv2 | hv2
      · exact Event.noConfusion hv2
      · exact a6 i p hv2
    · intro i p hp
      rcases List.mem_cons.mp hp with hv2 | hv2
      · exact Event.noConfusion hv2
      · exact a7 i p hv2

/-- Trace properties of the pipeline from the `before_validation` hooks on:
every `before_validation` hook observes the merged parameter set `p2`, the
`after_validation` and `after` observations lift from the later stages, the
trace is ordered with ranks at least `before_validation`, and no `before`
event occurs. -/
theorem am_props (self : Endpoint) (info : CallInfo) (c : Client) (p2 : JsonObject) :
    (∀ ev ∈ (afterMerges self info c p2).events, 1 ≤ evRank ev)
    ∧ EventsOrdered (afterMerges self info c p2).events
    ∧ (∀ i p, Event.hookRun .before_validation i p ∈ (afterMerges self info c p2).events →
        p = p2)
    ∧ (∀ i p, Event.hookRun .after_validation i p ∈ (afterMerges self info c p2).events →
        ∃ px py, Event.validateRun px ∈ (afterMerges self info c p2).events
          ∧ self.validate px = Except.ok py ∧ p = py)
    ∧ (∀ i p, Event.hookRun .after i p ∈ (afterMerges self info c p2).events →
        Event.handlerRun p ∈ (afterMerges self info c p2).events)
    ∧ (∀ i p, Event.hookRun .before i p ∉ (afterMerges self info c p2).events) := by
  obtain ⟨o, c2, evs2, h1, hcases⟩ := am_events_cases self info c p2
  have hrank2 := rank_of_mem_runHooks h1
  have hord2 := ordered_runHooks h1
  rcases hcases with he | he <;> rw [he]
  · refine ⟨?_, hord2, ?_, ?_, ?_, ?_⟩
    · intro ev hev
      exact (hrank2 ev hev).ge
    · intro i p hp
      exact (hookRun_mem_phase_snapshot h1 hp).2
    · intro i p hp
      exact absurd (hookRun_mem_phase_snapshot h1 hp).1 (by simp)
    · intro i p hp
      exact absurd (hookRun_mem_phase_snapshot h1 hp).1 (by simp)
    · intro i p hp
      exact absurd (hookRun_mem_phase_snapshot h1 hp).1 (by simp)
  · obtain ⟨v1, v2, v3, v4, v5, v6⟩ := vs_props self info c2 p2
    refine ⟨?_, ?_, ?_, ?_, ?_, ?_⟩
    · intro ev hev
      rcases List.mem_append.mp hev with hv | hv
      · exact (hrank2 ev hv).ge
      · exact le_trans (show (1 : Nat) ≤ 2 by decide) (v1 ev hv)
    · refine eventsOrdered_append _ _ hord2 v2 ?_
      intro a ha b hb
      rw [hrank2 a ha]
      exact le_trans (show (1 : Nat) ≤ 2 by decide) (v1 b hb)
    · intro i p hp
      rcases List.mem_append.mp hp with hv | hv
      · exact (hookRun_mem_phase_snapshot h1 hv).2
      · exact absurd hv (v6 i p)
    · intro i p hp
      rcases List.mem_append.mp hp with hv | hv
      · exact absurd (hookRun_mem_phase_snapshot h1 hv).1 (by simp)
      · obtain ⟨px, py, hmem, hvv, hpy⟩ := v3 i p hv
        exact ⟨px, py, List.mem_append.mpr (Or.inr hmem), hvv, hpy⟩
    · intro i p hp
      rcases List.mem_append.mp hp with hv | hv
      · exact absurd (hookRun_mem_phase_snapshot h1 hv).1 (by simp)
      · exact List.mem_append.mpr (Or.inr (v4 i p hv))
    · intro i p hp
      rcases List.mem_append.mp hp with hv | hv
      · exact absurd (hookRun_mem_phase_snapshot h1 hv).1 (by simp)
      · exact v5 i p hv

/-- Trace properties of the merge stage: it records no events of its own, a
`before_validation` hook event implies both merges succeeded and the hook
observed exactly their result, the later observations lift, the trace is
ordered with ranks at least `before_validation`, and no `before` event
occurs. -/
theorem ms_props (self : Endpoint) (ext : Externals) (info : CallInfo) (c : Client)
    (p0 : JsonObject) :
    (∀ ev ∈ (mergeStage self ext info c p0).events, 1 ≤ evRank ev)
    ∧ EventsOrdered (mergeStage self ext info c p0).events
    ∧ (∀ i p, Event.hookRun .before_validation i p ∈ (mergeStage self ext info c p0).events →
        ∃ p1, queryMerge ext p0 c.request = .okRes p1
          ∧ bodyMerge ext p1 c.request = .okRes p)
    ∧ (∀ i p, Event.hookRun .after_validation i p ∈ (mergeStage self ext info c p0).events →
        ∃ px py, Event.validateRun px ∈ (mergeStage self ext info c p0).events
          ∧ self.validate px = Except.ok py ∧ p = py)
    ∧ (∀ i p, Event.hookRun .after i p ∈ (mergeStage self ext info c p0).events →
        Event.handlerRun p ∈ (mergeStage self ext info c p0).events)
    ∧ (∀ i p, Event.hookRun .before i p ∉ (mergeStage self ext info c p0).events) := by
  rcases ms_events_cases self ext info c p0 with he | ⟨p1, p2, hq, hb, he⟩ <;> rw [he]
  · refine ⟨?_, List.Pairwise.nil, ?_, ?_, ?_, ?_⟩
    · intro ev hev
      exact absurd hev (List.not_mem_nil ev)
    · intro i p hp
      exact absurd hp (List.not_mem_nil _)
    · intro i p hp
      exact absurd hp (List.not_mem_nil _)
    · intro i p hp
      exact absurd hp (List.not_mem_nil _)
    · intro i p hp
      exact absurd hp (List.not_mem_nil _)
  · obtain ⟨m1, m2, m3, m4, m5, m6⟩ := am_props self info c p2
    refine ⟨m1, m2, ?_, m4, m5, m6⟩
    intro i p hp
    have hpp := m3 i p hp
    subst hpp
    exact ⟨p1, hq, hb⟩

/-- C3: hook phases run in the fixed order `before`, `before_validation`,
`after_validation`, `after`, interleaved with the pipeline stages: the whole
trace is rank-ordered; every `before` hook observes the parameter set as
seeded (path captures and outer seeds only, no query/body merges); every
`before_validation` hook observes exactly the result of the successful query
and body merges; every `after_validation` hook observes the output of a
successful validation, whose event precedes it in the trace; and an `after`
hook runs only after the handler produced its result. -/
theorem hook_phase_order_and_observations (self : Endpoint) (ext : Externals)
    (params : JsonObject) (req : Request) (info : CallInfo) :
    EventsOrdered (self.call_decode ext params req info).events
    ∧ (∀ i p, Event.hookRun .before i p ∈ (self.call_decode ext params req info).events →
        p = params)
    ∧ (∀ i p, Event.hookRun .before_validation i p ∈ (self.call_decode ext params req info).events →
        ∃ c1 evs1 p1, runHooks .before info.before (Client.new req) params = (none, c1, evs1)
          ∧ queryMerge ext params c1.request = .okRes p1
          ∧ bodyMerge ext p1 c1.request = .okRes p)
    ∧ (∀ i p, Event.hookRun .after_validation i p ∈ (self.call_decode ext params req info).events →
        ∃ px py, Event.validateRun px ∈ (self.call_decode ext params req info).events
          ∧ self.validate px = Except.ok py ∧ p = py)
    ∧ (∀ i p, Event.hookRun .after i p ∈ (self.call_decode ext params req info).events →
        Event.handlerRun p ∈ (self.call_decode ext params req info).events) := by
  obtain ⟨o, c1, evs1, h1, hcases⟩ := cd_events_cases self ext params req info
  have hrank1 := rank_of_mem_runHooks h1
  have hord1 := ordered_runHooks h1
  rcases hcases with he | ⟨ho, he⟩
  · rw [he]
    refine ⟨hord1, ?_, ?_, ?_, ?_⟩
    · intro i p hp
      exact (hookRun_mem_phase_snapshot h1 hp).2
    · intro i p hp
      exact absurd (hookRun_mem_phase_snapshot h1 hp).1 (by simp)
    · intro i p hp
      exact absurd (hookRun_mem_phase_snapshot h1 hp).1 (by simp)
    · intro i p hp
      exact absurd (hookRun_mem_phase_snapshot h1 hp).1 (by simp)
  · subst ho
    rw [he]
    obtain ⟨s1, s2, s3, s4, s5, s6⟩ := ms_props self ext info c1 params
    refine ⟨?_, ?_, ?_, ?_, ?_⟩
    · refine eventsOrdered_append _ _ hord1 s2 ?_
      intro a ha b hb
      rw [hrank1 a ha]
      exact le_trans (show (0 : Nat) ≤ 1 by decide) (s1 b hb)
    · intro i p hp
      rcases List.mem_append.mp hp with hv | hv
      · exact (hookRun_mem_phase_snapshot h1 hv).2
      · exact absurd hv (s6 i p)
    · intro i p hp
      rcases List.mem_append.mp hp with hv | hv
      · exact absurd (hookRun_mem_phase_snapshot h1 hv).1 (by simp)
      · obtain ⟨p1, hq, hb⟩ := s3 i p hv
        exact ⟨c1, evs1, p1, h1, hq, hb⟩
    · intro i p hp
      rcases List.mem_append.mp hp with hv | hv
      · exact absurd (hookRun_mem_phase_snapshot h1 hv).1 (by simp)
      · obtain ⟨px, py, hmem, hvv, hpy⟩ := s4 i p hv
        exact ⟨px, py, List.mem_append.mpr (Or.inr hmem), hvv, hpy⟩
    · intro i p hp
      rcases List.mem_append.mp hp with hv | hv
      · exact absurd (hookRun_mem_phase_snapshot h1 hv).1 (by simp)
      · exact List.mem_append.mpr (Or.inr (s5 i p hv))

/-- Witness for C3: in a call with one hook per phase and no query or body,
an `after` hook event is present, so the theorem yields the handler event for
the same snapshot. -/
theorem hook_phase_order_and_observations_witness :
    Event.handlerRun [] ∈ (epId.call_decode extInert [] reqPlain infoAll).events := by
  have hmem : Event.hookRun .after 0 []
      ∈ (epId.call_decode extInert [] reqPlain infoAll).events := by
    have hev : (epId.call_decode extInert [] reqPlain infoAll).events
        = [Event.hookRun .before 0 [], Event.hookRun .before_validation 0 [],
           Event.validateRun [], Event.hookRun .after_validation 0 [],
           Event.handlerRun [], Event.hookRun .after 0 []] := rfl
    rw [hev]
    simp
  exact (hook_phase_order_and_observations epId extInert [] reqPlain infoAll).2.2.2.2
    0 [] hmem

end Rustless
